import Mathlib

/-!
# Verification of the realtime audio bridge and storage service

Shallow embedding of the audio utilities, the `Community` realtime-call
component (`src/components/WordCard.tsx`, second document: the Gemini Live
audio bridge) and the `StorageService` word list (`src/services/storage.ts`)
of the vocabulary-learning client, together with proofs about the
properties its specification states.

Modelling conventions:
* JavaScript numbers are modelled as exact rationals (`ℚ`); the conversion
  performed by storing into an `Int16Array` (truncation toward zero of the
  numeric value) is modelled explicitly.
* Byte sequences (`Uint8Array`, binary strings) are `List ℕ` with entries
  below 256; base64 text is a `List ℕ` of character codes.
* The platform primitives `btoa`/`atob` (standard base64 with `=` padding,
  character code 61) are modelled by `btoaB64`/`atobB64`.
* Stateful component behaviour is modelled by explicit state records and
  step functions, one per event handler of the source.
-/

namespace VocabBridge

/-! ## PCM codec (WordCard.tsx, `floatTo16BitPCM` lines 329–336 and the
decode loop of `playAudioChunk` lines 496–523) -/

/-- Truncation toward zero, the conversion JavaScript applies when a
number is stored into an `Int16Array` element (the value here is always in
range, so no wrapping occurs — proved in `sampleToPCM_bounds`). -/
def truncTowardZero (q : ℚ) : ℤ := if q < 0 then ⌈q⌉ else ⌊q⌋

/-- `Math.max(-1, Math.min(1, input[i]))` from `floatTo16BitPCM`. -/
def clampSample (x : ℚ) : ℚ := max (-1) (min 1 x)

/-- One iteration of `floatTo16BitPCM`:
`const s = Math.max(-1, Math.min(1, input[i])); output[i] = s < 0 ? s * 0x8000 : s * 0x7FFF;`. -/
def sampleToPCM (x : ℚ) : ℤ :=
  if clampSample x < 0 then truncTowardZero (clampSample x * 32768)
  else truncTowardZero (clampSample x * 32767)

/-- `floatTo16BitPCM` (WordCard.tsx 329–336): maps every float sample of the
input to its 16-bit PCM value. -/
def floatTo16BitPCM (input : List ℚ) : List ℤ := input.map sampleToPCM

/-- The little-endian byte layout of the `Int16Array`'s backing
`ArrayBuffer`: each 16-bit value contributes its low byte then its high
byte (two's complement). This is the byte sequence `arrayBufferToBase64`
reads from the buffer returned by `floatTo16BitPCM`. -/
def int16LEBytes : List ℤ → List ℕ
  | [] => []
  | v :: rest => (v % 65536).toNat % 256 :: (v % 65536).toNat / 256 :: int16LEBytes rest

/-- `view.getInt16(i * 2, true)` from `playAudioChunk`: a little-endian
signed 16-bit read of two bytes. -/
def getInt16LE (b0 b1 : ℕ) : ℤ :=
  if b0 + 256 * b1 < 32768 then (b0 + 256 * b1 : ℤ) else (b0 + 256 * b1 : ℤ) - 65536

/-- The decode loop of `playAudioChunk` (lines 507–512): consume the bytes
two at a time, read each pair as a little-endian Int16 `pcm` and output
`pcm / 32768.0`.  (The loop bound `i < audioBytes.length / 2` drops a
trailing odd byte, as the `_ => []` branch does here.) -/
def playChunkDecode : List ℕ → List ℚ
  | b0 :: b1 :: rest => (getInt16LE b0 b1 : ℚ) / 32768 :: playChunkDecode rest
  | _ => []

/-! ## Base64 transcoding (WordCard.tsx 308–326)

`arrayBufferToBase64` builds a binary string whose character codes are the
buffer's bytes and applies the platform's `btoa`; `base64ToUint8Array`
applies the platform's `atob` and reads the character codes back.  The
byte↔binary-string steps are the identity on the code values, so both
functions reduce to base64 itself.  `btoaB64`/`atobB64` model the platform
primitives `btoa`/`atob`: RFC 4648 base64 with `=` padding (code 61),
`atob` taken on well-formed `btoa` output. -/

/-- The base64 alphabet: sextet value to character code
(`A–Z`, `a–z`, `0–9`, `+`, `/`). -/
def b64char (n : ℕ) : ℕ :=
  if n < 26 then n + 65
  else if n < 52 then n + 71
  else if n < 62 then n - 4
  else if n = 62 then 43 else 47

/-- The inverse alphabet: character code to sextet value. -/
def b64val (c : ℕ) : ℕ :=
  if 65 ≤ c ∧ c ≤ 90 then c - 65
  else if 97 ≤ c ∧ c ≤ 122 then c - 71
  else if 48 ≤ c ∧ c ≤ 57 then c + 4
  else if c = 43 then 62
  else if c = 47 then 63 else 0

/-- Model of the platform `btoa`: encode bytes three at a time into four
base64 characters, padding a final 1- or 2-byte group with `=` (code 61). -/
def btoaB64 : List ℕ → List ℕ
  | [] => []
  | [b0] => [b64char (b0 / 4), b64char ((b0 % 4) * 16), 61, 61]
  | [b0, b1] => [b64char (b0 / 4), b64char ((b0 % 4) * 16 + b1 / 16), b64char ((b1 % 16) * 4), 61]
  | b0 :: b1 :: b2 :: rest =>
      b64char (b0 / 4) :: b64char ((b0 % 4) * 16 + b1 / 16) ::
        b64char ((b1 % 16) * 4 + b2 / 64) :: b64char (b2 % 64) :: btoaB64 rest

/-- Model of the platform `atob` on well-formed base64: decode four
characters at a time, a trailing `=` or `==` marking a short final group. -/
def atobB64 : List ℕ → List ℕ
  | c0 :: c1 :: c2 :: c3 :: rest =>
      if c2 = 61 then [b64val c0 * 4 + b64val c1 / 16]
      else if c3 = 61 then
        [b64val c0 * 4 + b64val c1 / 16, (b64val c1 % 16) * 16 + b64val c2 / 4]
      else
        (b64val c0 * 4 + b64val c1 / 16) :: ((b64val c1 % 16) * 16 + b64val c2 / 4) ::
          ((b64val c2 % 4) * 64 + b64val c3) :: atobB64 rest
  | _ => []

/-- `arrayBufferToBase64` (WordCard.tsx 318–326): byte-to-char binary
string (identity on code values) followed by `btoa`. -/
def arrayBufferToBase64 (bytes : List ℕ) : List ℕ := btoaB64 bytes

/-- `base64ToUint8Array` (WordCard.tsx 308–316): `atob` followed by
reading each character code into a byte (identity on code values). -/
def base64ToUint8Array (base64 : List ℕ) : List ℕ := atobB64 base64

/-! ### Codec lemmas -/

theorem b64val_b64char : ∀ n, n < 64 → b64val (b64char n) = n := by decide

theorem b64char_ne_pad : ∀ n, n < 64 → b64char n ≠ 61 := by decide

/-- base64 round-trip on byte sequences. -/
theorem atobB64_btoaB64 (l : List ℕ) (h : ∀ b ∈ l, b < 256) :
    atobB64 (btoaB64 l) = l := by
  induction l using btoaB64.induct with
  | case1 => rfl
  | case2 b0 =>
    have hb0 : b0 < 256 := h b0 (by simp)
    have hp : b64char ((b0 % 4) * 16) ≠ 61 := b64char_ne_pad _ (by omega)
    simp only [btoaB64, atobB64]
    rw [if_pos trivial, b64val_b64char _ (by omega), b64val_b64char _ (by omega)]
    simp only [List.cons.injEq, and_true]
    omega
  | case3 b0 b1 =>
    have hb0 : b0 < 256 := h b0 (by simp)
    have hb1 : b1 < 256 := h b1 (by simp)
    have hp : b64char ((b1 % 16) * 4) ≠ 61 := b64char_ne_pad _ (by omega)
    simp only [btoaB64, atobB64]
    rw [if_neg hp, if_pos trivial, b64val_b64char _ (by omega), b64val_b64char _ (by omega),
      b64val_b64char _ (by omega)]
    simp only [List.cons.injEq, and_true]
    omega
  | case4 b0 b1 b2 rest ih =>
    have hb0 : b0 < 256 := h b0 (by simp)
    have hb1 : b1 < 256 := h b1 (by simp)
    have hb2 : b2 < 256 := h b2 (by simp)
    have hp2 : b64char ((b1 % 16) * 4 + b2 / 64) ≠ 61 := b64char_ne_pad _ (by omega)
    have hp3 : b64char (b2 % 64) ≠ 61 := b64char_ne_pad _ (by omega)
    simp only [btoaB64, atobB64]
    rw [if_neg hp2, if_neg hp3, b64val_b64char _ (by omega), b64val_b64char _ (by omega),
      b64val_b64char _ (by omega), b64val_b64char _ (by omega)]
    simp only [List.cons.injEq]
    refine ⟨by omega, by omega, by omega, ih ?_⟩
    intro b hb
    exact h b (by simp [hb])

theorem int16LEBytes_lt_256 (pcm : List ℤ) : ∀ b ∈ int16LEBytes pcm, b < 256 := by
  induction pcm with
  | nil => simp [int16LEBytes]
  | cons v rest ih =>
    intro b hb
    simp only [int16LEBytes, List.mem_cons] at hb
    rcases hb with h0 | h1 | hrest
    · omega
    · omega
    · exact ih b hrest

/-- Every PCM value produced by `sampleToPCM` fits a signed 16-bit
integer: the clamp to `[-1, 1]` and the asymmetric scale (`0x8000` for
negative, `0x7FFF` for non-negative samples) prevent overflow. -/
theorem sampleToPCM_bounds (x : ℚ) : -32768 ≤ sampleToPCM x ∧ sampleToPCM x ≤ 32767 := by
  have hs1 : -1 ≤ clampSample x := le_max_left _ _
  have hs2 : clampSample x ≤ 1 := max_le (by norm_num) (min_le_left _ _)
  unfold sampleToPCM truncTowardZero
  split_ifs with h1 h2 h3
  · -- negative sample, product negative: ceiling branch
    constructor
    · have hle : (-32768 : ℚ) ≤ clampSample x * 32768 := by nlinarith
      exact_mod_cast le_trans hle (Int.le_ceil _)
    · have : (⌈clampSample x * 32768⌉ : ℤ) ≤ 0 := Int.ceil_le.mpr (by push_cast; nlinarith)
      omega
  · -- negative sample but non-negative product: contradictory branch
    exfalso
    push_neg at h2
    nlinarith
  · -- non-negative sample, negative product: impossible
    exfalso
    push_neg at h1
    nlinarith
  · -- non-negative sample: floor branch
    push_neg at h1
    constructor
    · have : (0 : ℤ) ≤ ⌊clampSample x * 32767⌋ := Int.floor_nonneg.mpr (by nlinarith)
      omega
    · have hle : clampSample x * 32767 ≤ 32767 := by nlinarith
      have := Int.floor_le_floor hle
      simpa using this

/-- Decoding the wire bytes of an in-range PCM list recovers each value
divided by 32768. -/
theorem playChunkDecode_int16LEBytes (pcm : List ℤ)
    (h : ∀ v ∈ pcm, -32768 ≤ v ∧ v ≤ 32767) :
    playChunkDecode (int16LEBytes pcm) = pcm.map (fun v : ℤ => (v : ℚ) / 32768) := by
  induction pcm with
  | nil => rfl
  | cons v rest ih =>
    obtain ⟨hl, hu⟩ := h v (by simp)
    have hv : getInt16LE ((v % 65536).toNat % 256) ((v % 65536).toNat / 256) = v := by
      unfold getInt16LE
      split <;> omega
    simp only [int16LEBytes, playChunkDecode, List.map_cons, hv, List.cons.injEq, true_and]
    exact ih fun w hw => h w (by simp [hw])

/-- The full encode→decode chain of the audio bridge, as one equation:
PCM-encode, lay out little-endian bytes, base64-encode (transmit),
base64-decode, and run `playAudioChunk`'s sample loop.  Each produced
sample is the PCM value divided by 32768. -/
theorem decode_encode_eq (input : List ℚ) :
    playChunkDecode (base64ToUint8Array (arrayBufferToBase64
      (int16LEBytes (floatTo16BitPCM input)))) =
    input.map (fun x => (sampleToPCM x : ℚ) / 32768) := by
  have hb : ∀ v ∈ floatTo16BitPCM input, -32768 ≤ v ∧ v ≤ 32767 := by
    intro v hv
    simp only [floatTo16BitPCM, List.mem_map] at hv
    obtain ⟨x, _, rfl⟩ := hv
    exact sampleToPCM_bounds x
  unfold base64ToUint8Array arrayBufferToBase64
  rw [atobB64_btoaB64 _ (int16LEBytes_lt_256 _), playChunkDecode_int16LEBytes _ hb,
    floatTo16BitPCM, List.map_map]
  rfl

/-- Quantization error of one sample in `[-1, 1]`: a negative sample is
decoded within one step (`1/32768`); a non-negative sample only within two
steps, because the encoder scales by 32767 while `playAudioChunk`'s
decoder divides by 32768. -/
theorem sample_quant_error (x : ℚ) (h1 : -1 ≤ x) (h2 : x ≤ 1) :
    |x - (sampleToPCM x : ℚ) / 32768| < 2 / 32768 := by
  have hc : clampSample x = x := by
    unfold clampSample
    rw [min_eq_right h2, max_eq_right h1]
  unfold sampleToPCM truncTowardZero
  rw [hc]
  by_cases hx : x < 0
  · have hprod : x * 32768 < 0 := by nlinarith
    rw [if_pos hx, if_pos hprod]
    have hle := Int.le_ceil (x * 32768)
    have hlt := Int.ceil_lt_add_one (x * 32768)
    rw [abs_lt]
    constructor <;> linarith
  · push_neg at hx
    have hprod : ¬(x * 32767 < 0) := by push_neg; nlinarith
    rw [if_neg (not_lt.mpr hx), if_neg hprod]
    have hfl := Int.floor_le (x * 32767)
    have hfl2 := Int.lt_floor_add_one (x * 32767)
    rw [abs_lt]
    constructor <;> linarith

/-- Elementwise quantization-error bound for the mapped PCM decode. -/
theorem map_quant_error (input : List ℚ) (h : ∀ x ∈ input, -1 ≤ x ∧ x ≤ 1)
    (i : ℕ) (hi : i < input.length) :
    |input.getD i 0 - (input.map (fun x => (sampleToPCM x : ℚ) / 32768)).getD i 0| < 2 / 32768 := by
  induction input generalizing i with
  | nil => simp at hi
  | cons a t ih =>
    cases i with
    | zero =>
      simp only [List.map_cons, List.getD_cons_zero]
      exact sample_quant_error a (h a (by simp)).1 (h a (by simp)).2
    | succ n =>
      simp only [List.map_cons, List.getD_cons_succ]
      exact ih (fun x hx => h x (by simp [hx])) n (by simpa using hi)

/-- C1 counterexample: at the sample `65535/65536` the decoded value is
`32766/32768`, an absolute error of `3/65536`, which exceeds one
quantization step `1/32768 = 2/65536`.  (`⌊65535/65536 * 32767⌋ = 32766`.) -/
theorem quantization_error_counterexample :
    ¬(|(65535 : ℚ) / 65536 -
        (playChunkDecode (base64ToUint8Array (arrayBufferToBase64
          (int16LEBytes (floatTo16BitPCM [(65535 : ℚ) / 65536]))))).getD 0 0| ≤ 1 / 32768) := by
  have e1 : sampleToPCM ((65535 : ℚ) / 65536) = 32766 := by
    unfold sampleToPCM clampSample truncTowardZero
    rw [min_eq_right (by norm_num), max_eq_right (by norm_num)]
    rw [if_neg (by norm_num), if_neg (by norm_num)]
    norm_num
  rw [decode_encode_eq]
  simp only [List.map_cons, List.map_nil, e1, List.getD_cons_zero]
  rw [abs_of_pos (by norm_num)]
  norm_num

/-- C1 (amended): for every float sample array with values in `[-1, 1]`,
decoding the encoded, wire-transported array reconstructs every sample
with absolute error strictly less than two quantization steps
(`2/32768`); one step is not always enough. -/
theorem audio_roundtrip_error_lt_two_steps (input : List ℚ)
    (h : ∀ x ∈ input, -1 ≤ x ∧ x ≤ 1) (i : ℕ) (hi : i < input.length) :
    |input.getD i 0 -
      (playChunkDecode (base64ToUint8Array (arrayBufferToBase64
        (int16LEBytes (floatTo16BitPCM input))))).getD i 0| < 2 / 32768 := by
  rw [decode_encode_eq]
  exact map_quant_error input h i hi

/-- Witness for C1's amended theorem at the concrete one-sample array
`[1/2]`. -/
theorem audio_roundtrip_error_witness :
    (∀ x ∈ [(1 : ℚ) / 2], -1 ≤ x ∧ x ≤ 1) ∧ 0 < ([(1 : ℚ) / 2]).length ∧
    |([(1 : ℚ) / 2]).getD 0 0 -
      (playChunkDecode (base64ToUint8Array (arrayBufferToBase64
        (int16LEBytes (floatTo16BitPCM [(1 : ℚ) / 2]))))).getD 0 0| < 2 / 32768 :=
  ⟨by norm_num, by norm_num,
    audio_roundtrip_error_lt_two_steps [(1 : ℚ) / 2] (by norm_num) 0 (by norm_num)⟩

/-- C8: the PCM encoder clamps each sample to `[-1, 1]`, scales a negative
clamped value by 32768 and a non-negative one by 32767, truncates toward
zero, and the result always fits in a signed 16-bit integer — no overflow
at `+1.0` or `-1.0`. -/
theorem floatTo16BitPCM_fits_int16 (input : List ℚ) (v : ℤ)
    (hv : v ∈ floatTo16BitPCM input) : -32768 ≤ v ∧ v ≤ 32767 := by
  simp only [floatTo16BitPCM, List.mem_map] at hv
  obtain ⟨x, _, rfl⟩ := hv
  exact sampleToPCM_bounds x

/-- Witness for C8 at the extreme input `+1.0`, which encodes to 32767. -/
theorem floatTo16BitPCM_fits_int16_witness :
    (32767 : ℤ) ∈ floatTo16BitPCM [(1 : ℚ)] ∧
    (-32768 ≤ (32767 : ℤ) ∧ (32767 : ℤ) ≤ 32767) := by
  have hm : (32767 : ℤ) ∈ floatTo16BitPCM [(1 : ℚ)] := by
    unfold floatTo16BitPCM sampleToPCM clampSample truncTowardZero
    norm_num
  exact ⟨hm, floatTo16BitPCM_fits_int16 [(1 : ℚ)] 32767 hm⟩

/-- C7: for every byte sequence (all entries below 256, including the
empty sequence, embedded zero bytes and the full 0–255 range), decoding
the transport-safe text encoding returns the original bytes exactly:
`base64ToUint8Array (arrayBufferToBase64 b) = b`. -/
theorem base64_roundtrip (b : List ℕ) (h : ∀ x ∈ b, x < 256) :
    base64ToUint8Array (arrayBufferToBase64 b) = b :=
  atobB64_btoaB64 b h

/-- Witness for C7 at a concrete byte sequence containing a zero byte,
255, the padding code 61 and a non-multiple-of-3 length, plus the empty
sequence. -/
theorem base64_roundtrip_witness :
    (∀ x ∈ [0, 255, 61, 7, 128], x < 256) ∧
    base64ToUint8Array (arrayBufferToBase64 [0, 255, 61, 7, 128]) = [0, 255, 61, 7, 128] ∧
    base64ToUint8Array (arrayBufferToBase64 ([] : List ℕ)) = [] :=
  ⟨by decide, base64_roundtrip _ (by decide), base64_roundtrip [] (by decide)⟩

/-! ## Playback scheduler (WordCard.tsx, `playAudioChunk` lines 496–523)

`playAudioChunk` creates a buffer of `audioBytes.length / 2` frames at
`OUTPUT_SAMPLE_RATE`, computes
`startTime = Math.max(ctx.currentTime, nextStartTimeRef.current)`, starts
the source there and sets
`nextStartTimeRef.current = startTime + audioBuffer.duration`. -/

/-- `INPUT_SAMPLE_RATE = 16000` (WordCard.tsx 305). -/
def INPUT_SAMPLE_RATE : ℕ := 16000

/-- `OUTPUT_SAMPLE_RATE = 24000` (WordCard.tsx 306). -/
def OUTPUT_SAMPLE_RATE : ℕ := 24000

/-- `audioBuffer.duration` in seconds for a chunk of `byteLen` bytes:
`(byteLen / 2)` frames at `OUTPUT_SAMPLE_RATE`. -/
def chunkDuration (byteLen : ℕ) : ℚ := ((byteLen / 2 : ℕ) : ℚ) / OUTPUT_SAMPLE_RATE

/-- The scheduling step of `playAudioChunk`: given the clock reading `now`
and the cursor `nextStartTimeRef.current`, return the chunk's start time
and the advanced cursor. -/
def scheduleChunk (now cursor : ℚ) (byteLen : ℕ) : ℚ × ℚ :=
  (max now cursor, max now cursor + chunkDuration byteLen)

/-- Run the scheduler over a sequence of (arrival clock time, chunk byte
length) events, threading the cursor; returns the start times issued. -/
def runScheduler (cursor : ℚ) : List (ℚ × ℕ) → List ℚ
  | [] => []
  | e :: rest => (scheduleChunk e.1 cursor e.2).1 :: runScheduler (scheduleChunk e.1 cursor e.2).2 rest

theorem chunkDuration_nonneg (n : ℕ) : 0 ≤ chunkDuration n := by
  unfold chunkDuration OUTPUT_SAMPLE_RATE
  positivity

theorem runScheduler_length (cursor : ℚ) (evs : List (ℚ × ℕ)) :
    (runScheduler cursor evs).length = evs.length := by
  induction evs generalizing cursor with
  | nil => rfl
  | cons e rest ih => simp [runScheduler, ih]

/-- The first start time issued is never before the cursor. -/
theorem runScheduler_head_ge (cursor : ℚ) (evs : List (ℚ × ℕ)) (h : evs ≠ []) :
    cursor ≤ (runScheduler cursor evs).getD 0 0 := by
  cases evs with
  | nil => exact absurd rfl h
  | cons e rest =>
    simp only [runScheduler, scheduleChunk, List.getD_cons_zero]
    exact le_max_right _ _

/-- Consecutive start times are separated by at least the earlier chunk's
duration. -/
theorem runScheduler_adjacent (cursor : ℚ) (evs : List (ℚ × ℕ)) (i : ℕ)
    (h : i + 1 < evs.length) :
    (runScheduler cursor evs).getD i 0 + chunkDuration (evs.getD i (0, 0)).2 ≤
      (runScheduler cursor evs).getD (i + 1) 0 := by
  induction evs generalizing cursor i with
  | nil => simp at h
  | cons e rest ih =>
    cases i with
    | zero =>
      have hne : rest ≠ [] := by
        intro hr
        rw [hr] at h
        simp at h
      have hd := runScheduler_head_ge (scheduleChunk e.1 cursor e.2).2 rest hne
      simpa [runScheduler, scheduleChunk, List.getD_cons_zero, List.getD_cons_succ] using hd
    | succ n =>
      simp only [runScheduler, List.getD_cons_succ]
      exact ih _ n (by simpa using h)

/-- C2: scheduling through `playAudioChunk`'s cursor logic, each chunk
starts at `max(currentClockTime, cursor)`, never before the cursor, the
cursor advances by exactly the chunk's duration, successive start times
are separated by at least the earlier chunk's duration (no overlap), and
the start-time sequence is non-decreasing — for arbitrary, possibly
simultaneous, arrival clock times. -/
theorem scheduler_invariants (c0 : ℚ) (events : List (ℚ × ℕ)) :
    (∀ now cursor n, (scheduleChunk now cursor n).1 = max now cursor ∧
      cursor ≤ (scheduleChunk now cursor n).1 ∧
      (scheduleChunk now cursor n).2 = (scheduleChunk now cursor n).1 + chunkDuration n) ∧
    (runScheduler c0 events).length = events.length ∧
    (∀ i, i + 1 < events.length →
      (runScheduler c0 events).getD i 0 + chunkDuration (events.getD i (0, 0)).2 ≤
        (runScheduler c0 events).getD (i + 1) 0) ∧
    (∀ i, i + 1 < events.length →
      (runScheduler c0 events).getD i 0 ≤ (runScheduler c0 events).getD (i + 1) 0) := by
  refine ⟨fun now cursor n => ⟨rfl, le_max_right _ _, rfl⟩,
    runScheduler_length c0 events, runScheduler_adjacent c0 events, fun i hi => ?_⟩
  have := runScheduler_adjacent c0 events i hi
  have hd := chunkDuration_nonneg (events.getD i (0, 0)).2
  linarith

/-- Witness for C2 at two chunks arriving at the same clock time 0: the
second starts no earlier than the first's start plus its 0.5 s duration. -/
theorem scheduler_invariants_witness :
    0 + 1 < ([((0 : ℚ), 24000), ((0 : ℚ), 48000)] : List (ℚ × ℕ)).length ∧
    (runScheduler 0 [((0 : ℚ), 24000), ((0 : ℚ), 48000)]).getD 0 0 +
        chunkDuration (([((0 : ℚ), 24000), ((0 : ℚ), 48000)] : List (ℚ × ℕ)).getD 0 (0, 0)).2 ≤
      (runScheduler 0 [((0 : ℚ), 24000), ((0 : ℚ), 48000)]).getD 1 0 :=
  ⟨by norm_num, (scheduler_invariants 0 _).2.2.1 0 (by norm_num)⟩

/-! ## Capture pipeline (WordCard.tsx, `startAudioPipeline` lines 457–494)

The `onaudioprocess` handler first applies the mute guard
(`if (!isMicOn) return;`), then accumulates the frame's squared samples
into the level readout (`setVolumeLevel(Math.sqrt(sum / length))`), then
encodes the frame and sends
`{ media: { mimeType: "audio/pcm;rate=16000", data: base64 } }`.
Because `Math.sqrt` of a rational is irrational in general, the model
keeps the mean square `sum / length` as the metering value; the displayed
level is its square root, a strictly monotone function of it, so "the
level was (not) updated" is faithfully captured.

`isMicOn` is `useState` state, but the handler is installed exactly once
per call (by `startAudioPipeline`, from the `onopen` callback) and its
closure captures the `isMicOn` const of the render in which `startCall`
ran.  `toggleMic` flips the state and re-renders the buttons, but never
re-installs the handler, so every frame of one installed run is processed
with the same captured flag: the flag the handler reads cannot change
between frames of a call. -/

/-- One outbound message `{ media: { mimeType, data } }`. -/
structure MediaMsg where
  mimeType : String
  data : List ℕ
deriving DecidableEq, Repr

/-- The template literal `audio/pcm;rate=${INPUT_SAMPLE_RATE}`. -/
def pcmMimeType : String := "audio/pcm;rate=" ++ toString INPUT_SAMPLE_RATE

/-- Mean of the squared samples of a frame (the value whose square root
the handler stores with `setVolumeLevel`). -/
def meanSquare (frame : List ℚ) : ℚ := (frame.map (fun x => x * x)).sum / frame.length

/-- The frame encoding performed by the handler body: PCM-encode the
frame, base64 the buffer bytes, and wrap with the fixed MIME type. -/
def encodeFrame (frame : List ℚ) : MediaMsg :=
  { mimeType := pcmMimeType
    data := arrayBufferToBase64 (int16LEBytes (floatTo16BitPCM frame)) }

/-- The `onaudioprocess` handler: returns the new metering value and the
message sent, if any.  Muted frames return before any computation. -/
def onaudioprocess (isMicOn : Bool) (volumeLevel : ℚ) (frame : List ℚ) :
    ℚ × Option MediaMsg :=
  if !isMicOn then (volumeLevel, none)
  else (meanSquare frame, some (encodeFrame frame))

/-- Fold the handler over successive frames, each paired with the flag
value the handler reads for it, collecting the messages sent.  Because
the installed handler's closure holds one captured `isMicOn` value for
the whole run, the program only realises runs whose flags are constant
(`runCapture` below); the general form exists so that both constant-flag
runs can be stated over the same fold. -/
def processFrames (volumeLevel : ℚ) : List (Bool × List ℚ) → List MediaMsg
  | [] => []
  | f :: rest =>
    match onaudioprocess f.1 volumeLevel f.2 with
    | (vol, some m) => m :: processFrames vol rest
    | (vol, none) => processFrames vol rest

/-- The messages sent are exactly the encodings of the unmuted frames, in
capture order. -/
theorem processFrames_eq (volumeLevel : ℚ) (sched : List (Bool × List ℚ)) :
    processFrames volumeLevel sched =
      (sched.filter fun p => p.1).map fun p => encodeFrame p.2 := by
  induction sched generalizing volumeLevel with
  | nil => rfl
  | cons f rest ih =>
    obtain ⟨b, fr⟩ := f
    cases b <;> simp [processFrames, onaudioprocess, List.filter_cons, ih]

/-- One installed run of the capture pipeline: the handler processes
every frame with the single `isMicOn` value its closure captured when
`startAudioPipeline` installed it.  Mute toggles pressed during the run
update React state only; they do not appear here because they cannot
reach the handler. -/
def runCapture (capturedMicOn : Bool) (volumeLevel : ℚ) (frames : List (List ℚ)) :
    List MediaMsg :=
  processFrames volumeLevel (frames.map fun f => (capturedMicOn, f))

/-- C3 (amended): the mute flag the capture pipeline observes is the one
captured when its handler was installed, and it governs the run
wholesale.  If the captured flag is muted, every frame of the run is
skipped entirely — no root-mean-square level is computed and no chunk is
emitted — and unmuting during the run resumes nothing; if it is unmuted,
every frame updates the level and emits exactly one wire-encoded chunk,
and muting during the run stops nothing.  Only tearing down and
restarting the pipeline changes the behaviour. -/
theorem mute_captured_flag (volumeLevel : ℚ) (frame : List ℚ) (frames : List (List ℚ)) :
    onaudioprocess false volumeLevel frame = (volumeLevel, none) ∧
    runCapture false volumeLevel frames = [] ∧
    onaudioprocess true volumeLevel frame = (meanSquare frame, some (encodeFrame frame)) ∧
    runCapture true volumeLevel frames = frames.map encodeFrame := by
  refine ⟨rfl, ?_, rfl, ?_⟩
  · rw [runCapture, processFrames_eq]
    induction frames with
    | nil => rfl
    | cons f rest ih => simp [List.filter_cons, ih]
  · rw [runCapture, processFrames_eq]
    induction frames with
    | nil => rfl
    | cons f rest ih => simpa [List.filter_cons] using ih

/-- C9: while connected and unmuted, each captured frame produces exactly
one transmitted message `{ media: { mimeType: "audio/pcm;rate=16000",
data: wire-text of the frame's int16 encoding } }`, one message per frame
in capture order, with the rate fixed at 16000 Hz. -/
theorem frames_to_messages (volumeLevel : ℚ) (frames : List (List ℚ)) :
    processFrames volumeLevel (frames.map fun f => (true, f)) = frames.map encodeFrame ∧
    (processFrames volumeLevel (frames.map fun f => (true, f))).length = frames.length ∧
    pcmMimeType = "audio/pcm;rate=16000" ∧
    ∀ f ∈ frames, (encodeFrame f).data =
      arrayBufferToBase64 (int16LEBytes (floatTo16BitPCM f)) := by
  have he : processFrames volumeLevel (frames.map fun f => (true, f)) =
      frames.map encodeFrame := by
    rw [processFrames_eq]
    induction frames with
    | nil => rfl
    | cons f rest ih => simpa [List.filter_cons] using ih
  exact ⟨he, by rw [he, List.length_map], rfl, fun f _ => rfl⟩

/-- Witness for C9 at one concrete frame: processing it unmuted emits
exactly its encoding. -/
theorem frames_to_messages_witness :
    processFrames 0 ([[(1 : ℚ) / 2]].map fun f => (true, f)) = [[(1 : ℚ) / 2]].map encodeFrame ∧
    [(1 : ℚ) / 2] ∈ [[(1 : ℚ) / 2]] ∧
    (encodeFrame [(1 : ℚ) / 2]).data =
      arrayBufferToBase64 (int16LEBytes (floatTo16BitPCM [(1 : ℚ) / 2])) :=
  ⟨(frames_to_messages 0 [[(1 : ℚ) / 2]]).1, by simp,
    (frames_to_messages 0 [[(1 : ℚ) / 2]]).2.2.2 [(1 : ℚ) / 2] (by simp)⟩

/-! ## Call state machine (WordCard.tsx, `Community` component 384–556)

The component state is `activeCall`, `isMicOn`, `connectionStatus` and the
five mutable refs (`audioContextRef`, `inputSourceRef`, `processorRef`,
`streamRef`, `sessionPromiseRef`), each modelled by a `Bool` recording
whether the ref currently holds a resource (`current !== null`).  Each
event handler of the source becomes one step function. -/

/-- `connectionStatus`: `'idle' | 'connecting' | 'connected' | 'error'`. -/
inductive ConnStatus
  | idle
  | connecting
  | connected
  | error
deriving DecidableEq, Repr

/-- The component state of `Community`. -/
structure CallState where
  activeCall : Option String
  isMicOn : Bool
  connectionStatus : ConnStatus
  audioCtx : Bool
  inputSource : Bool
  processor : Bool
  stream : Bool
  sessionRef : Bool
  nextStartTime : ℚ
deriving DecidableEq, Repr

/-- The initial component state (`useState` initialisers and null refs). -/
def initState : CallState :=
  { activeCall := none, isMicOn := true, connectionStatus := ConnStatus.idle,
    audioCtx := false, inputSource := false, processor := false, stream := false,
    sessionRef := false, nextStartTime := 0 }

/-- `startCall` (402–455) on its success path up to the `ai.live.connect`
call: set the active call and `'connecting'`, create the audio context
(cursor ← current clock time `now`), acquire the microphone stream, store
the session promise.  The `onopen`/`onerror`/`onclose` callbacks arrive
later as separate events. -/
def startCall (s : CallState) (persona : String) (now : ℚ) : CallState :=
  { s with
    activeCall := some persona
    connectionStatus := ConnStatus.connecting
    audioCtx := true
    nextStartTime := now
    stream := true
    sessionRef := true }

/-- `startAudioPipeline` (457–494): returns without effect unless the
audio context, the stream and the session ref are all present; otherwise
connects the media-stream source and the script processor. -/
def startAudioPipeline (s : CallState) : CallState :=
  if s.audioCtx && s.stream && s.sessionRef then
    { s with inputSource := true, processor := true }
  else s

/-- The `onopen` callback (428–432): set `'connected'`, then
`startAudioPipeline()`. -/
def onopen (s : CallState) : CallState :=
  startAudioPipeline { s with connectionStatus := ConnStatus.connected }

/-- The `onerror` callback (444–447): `setConnectionStatus('error')` and
nothing else. -/
def onerror (s : CallState) : CallState :=
  { s with connectionStatus := ConnStatus.error }

/-- `endCall` (525–552): each teardown step is guarded by a null check on
its ref and clears the ref; finally the active call is cleared and the
status set to `'idle'`. -/
def endCall (s : CallState) : CallState :=
  let s1 := if s.sessionRef then { s with sessionRef := false } else s
  let s2 := if s1.stream then { s1 with stream := false } else s1
  let s3 := if s2.processor then { s2 with processor := false } else s2
  let s4 := if s3.inputSource then { s3 with inputSource := false } else s3
  let s5 := if s4.audioCtx then { s4 with audioCtx := false } else s4
  { s5 with activeCall := none, connectionStatus := ConnStatus.idle }

/-- The `onclose` callback (440–443): `endCall()`. -/
def onclose (s : CallState) : CallState := endCall s

/-- `toggleMic` (554–556). -/
def toggleMic (s : CallState) : CallState := { s with isMicOn := !s.isMicOn }

/-- `endCall` in closed form: it releases every handle and resets the call
fields, whatever the starting state. -/
theorem endCall_eq (s : CallState) :
    endCall s =
      { activeCall := none, isMicOn := s.isMicOn, connectionStatus := ConnStatus.idle,
        audioCtx := false, inputSource := false, processor := false, stream := false,
        sessionRef := false, nextStartTime := s.nextStartTime } := by
  obtain ⟨a, b, c, d, e, f, g, h, i⟩ := s
  cases d <;> cases e <;> cases f <;> cases g <;> cases h <;> rfl

/-- C3 counterexample, both halves at concrete reachable traces.
(a) Start a call with the mic on (`initState`'s value, captured by the
handler installed at `onopen`), then press the mute button: the UI mute
flag is now set (`isMicOn = false`), yet the next frame is still
processed with the handler's captured flag `true` and a wire-encoded
chunk IS emitted — the stale closure means `toggleMic` never reaches the
handler.  (b) Start a call with the mic already off (toggled before
`startCall`): the handler captures `false`, and a processed all-ones
frame, whose root-mean-square level is 1, leaves the metering value at 0
— the level is not computed while muted.  So both "no chunk is emitted"
and "the level is still computed" fail for frames processed while the
mute flag is set. -/
theorem mute_claim_counterexample :
    (toggleMic (onopen (startCall initState "priya" 0))).isMicOn = false ∧
    (onaudioprocess (onopen (startCall initState "priya" 0)).isMicOn 0 [1]).2 =
      some (encodeFrame [1]) ∧
    (startCall (toggleMic initState) "priya" 0).isMicOn = false ∧
    (onaudioprocess (startCall (toggleMic initState) "priya" 0).isMicOn 0 [1]).1 = 0 ∧
    meanSquare [1] = 1 ∧ (0 : ℚ) ≠ 1 := by
  refine ⟨rfl, rfl, rfl, rfl, ?_, by norm_num⟩
  unfold meanSquare
  norm_num

/-- C4 counterexample: start a call, end it while still `Connecting`, then
let the remote `open` event arrive.  `onopen` unconditionally runs
`setConnectionStatus('connected')`, so the controller leaves the idle
(`NoCall`) state, contradicting the claim. -/
theorem open_after_endCall_counterexample :
    (onopen (endCall (startCall initState "priya" 0))).connectionStatus =
      ConnStatus.connected ∧
    ConnStatus.connected ≠ ConnStatus.idle := by
  constructor
  · rfl
  · intro h
    cases h

/-- C4 (amended): after `endCall`, a late remote `open` event does not
start capture — the pipeline guard fails because every handle was
released — and the active call stays cleared; but it does run
`setConnectionStatus('connected')`, so the status field leaves `'idle'`
instead of remaining there. -/
theorem open_after_endCall (s : CallState) :
    (onopen (endCall s)).inputSource = false ∧
    (onopen (endCall s)).processor = false ∧
    (onopen (endCall s)).activeCall = none ∧
    (onopen (endCall s)).connectionStatus = ConnStatus.connected := by
  rw [endCall_eq]
  simp [onopen, startAudioPipeline]

/-- C5 counterexample: in a connected call holding all resources, the
remote `error` event sets the errored status but releases nothing — the
microphone stream, session handle, audio context and capture taps are all
still held, so no teardown was triggered. -/
theorem error_no_teardown_counterexample :
    (onerror (onopen (startCall initState "priya" 0))).connectionStatus = ConnStatus.error ∧
    (onerror (onopen (startCall initState "priya" 0))).stream = true ∧
    (onerror (onopen (startCall initState "priya" 0))).sessionRef = true ∧
    (onerror (onopen (startCall initState "priya" 0))).audioCtx = true ∧
    (onerror (onopen (startCall initState "priya" 0))).processor = true :=
  ⟨rfl, rfl, rfl, rfl, rfl⟩

/-- C5 (amended): on a remote `error` event the component transitions to
the errored status, surfacing the user-visible connection-failed
condition, but performs no teardown: the session handle, microphone
stream, capture taps and audio context all remain exactly as they were,
until `endCall` is invoked separately. -/
theorem onerror_only_sets_status (s : CallState) :
    (onerror s).connectionStatus = ConnStatus.error ∧
    (onerror s).activeCall = s.activeCall ∧
    (onerror s).stream = s.stream ∧
    (onerror s).sessionRef = s.sessionRef ∧
    (onerror s).processor = s.processor ∧
    (onerror s).inputSource = s.inputSource ∧
    (onerror s).audioCtx = s.audioCtx :=
  ⟨rfl, rfl, rfl, rfl, rfl, rfl, rfl⟩

/-- No call is active: every owned handle is already released and the
controller shows no call. -/
def noCallActive (s : CallState) : Prop :=
  s.activeCall = none ∧ s.connectionStatus = ConnStatus.idle ∧ s.audioCtx = false ∧
    s.inputSource = false ∧ s.processor = false ∧ s.stream = false ∧ s.sessionRef = false

/-- C6: `endCall` is idempotent — calling it twice in a row equals calling
it once, and calling it when no call is active (all owned handles already
released) leaves the component state unchanged; every teardown step is
guarded, so the model is total and no step observes a released resource. -/
theorem endCall_idempotent (s : CallState) :
    endCall (endCall s) = endCall s ∧ (noCallActive s → endCall s = s) := by
  constructor
  · rw [endCall_eq (endCall s), endCall_eq s]
  · rintro ⟨h1, h2, h3, h4, h5, h6, h7⟩
    rw [endCall_eq s]
    obtain ⟨a, b, c, d, e, f, g, h, i⟩ := s
    simp_all

/-- Witness for C6 at the initial (no call active) state. -/
theorem endCall_idempotent_witness :
    noCallActive initState ∧ endCall (endCall initState) = endCall initState ∧
    endCall initState = initState :=
  ⟨⟨rfl, rfl, rfl, rfl, rfl, rfl, rfl⟩, (endCall_idempotent initState).1,
    (endCall_idempotent initState).2 ⟨rfl, rfl, rfl, rfl, rfl, rfl, rfl⟩⟩

/-! ## Storage service (src/services/storage.ts, `saveWord` lines 19–29)

Strings are modelled as lists of UTF-16 code units;
`String.prototype.toLowerCase` is modelled on the letters it maps in the
ASCII range.  `WordData` is restricted to the fields `saveWord` reads or
writes (`word`, `id`, `dateAdded`); `payload` stands for all remaining
fields, carried through the object spread `{ ...word }` unchanged. -/

/-- A stored word entry. -/
structure WordData where
  word : List ℕ
  payload : List ℕ
  id : List ℕ
  dateAdded : ℕ
deriving DecidableEq, Repr

/-- `toLowerCase` on one code unit (ASCII letters). -/
def toLowerCode (c : ℕ) : ℕ := if 65 ≤ c ∧ c ≤ 90 then c + 32 else c

/-- `word.toLowerCase()`. -/
def lowerWord (w : List ℕ) : List ℕ := w.map toLowerCode

/-- `StorageService.saveWord`, parameterised by the stored list read from
local storage and by the fresh `crypto.randomUUID()` and `Date.now()`
values; returns the stored list after the call and the returned flag.
The new entry is prepended with `unshift`. -/
def saveWord (stored : List WordData) (word : WordData) (freshId : List ℕ) (now : ℕ) :
    List WordData × Bool :=
  if stored.any fun w => lowerWord w.word == lowerWord word.word then (stored, false)
  else ({ word with id := freshId, dateAdded := now } :: stored, true)

/-- C10: `saveWord` returns `true` exactly when no stored word matches the
candidate case-insensitively; when it returns `true` the candidate is
prepended with the fresh id and date, and when it returns `false` the
stored list is unchanged. -/
theorem saveWord_spec (stored : List WordData) (word : WordData) (freshId : List ℕ)
    (now : ℕ) :
    ((saveWord stored word freshId now).2 = true ↔
      ∀ w ∈ stored, lowerWord w.word ≠ lowerWord word.word) ∧
    ((saveWord stored word freshId now).2 = true →
      (saveWord stored word freshId now).1 =
        { word with id := freshId, dateAdded := now } :: stored) ∧
    ((saveWord stored word freshId now).2 = false →
      (saveWord stored word freshId now).1 = stored) := by
  cases hany : stored.any fun w => lowerWord w.word == lowerWord word.word with
  | false =>
    have hall : ∀ w ∈ stored, lowerWord w.word ≠ lowerWord word.word := by
      intro w hw
      have := List.any_eq_false.mp hany w hw
      simpa using this
    have hif : saveWord stored word freshId now =
        ({ word with id := freshId, dateAdded := now } :: stored, true) := by
      unfold saveWord
      rw [if_neg (by simp [hany])]
    rw [hif]
    exact ⟨⟨fun _ => hall, fun _ => rfl⟩, fun _ => rfl, fun hf => by cases hf⟩
  | true =>
    obtain ⟨w, hw, he⟩ := List.any_eq_true.mp hany
    rw [beq_iff_eq] at he
    have hif : saveWord stored word freshId now = (stored, false) := by
      unfold saveWord
      rw [if_pos hany]
    rw [hif]
    exact ⟨⟨fun hf => absurd hf (by simp), fun hall => absurd he (hall w hw)⟩,
      fun hf => absurd hf (by simp), fun _ => rfl⟩

/-- Witness for C10: saving `"hI"` over a stored `"Hi"` (code units
`[104,73]` vs `[72,105]`) is refused and leaves the list unchanged;
saving it into an empty list prepends it with the fresh id and date. -/
theorem saveWord_spec_witness :
    (saveWord [⟨[72, 105], [], [120], 0⟩] ⟨[104, 73], [1], [2], 3⟩ [9] 4).2 = false ∧
    (saveWord [⟨[72, 105], [], [120], 0⟩] ⟨[104, 73], [1], [2], 3⟩ [9] 4).1 =
      [⟨[72, 105], [], [120], 0⟩] ∧
    (saveWord [] ⟨[104, 73], [1], [2], 3⟩ [9] 4).1 = [⟨[104, 73], [1], [9], 4⟩] := by
  have h2 : (saveWord [⟨[72, 105], [], [120], 0⟩] ⟨[104, 73], [1], [2], 3⟩ [9] 4).2 =
      false := by decide
  have h3 : (saveWord [] ⟨[104, 73], [1], [2], 3⟩ [9] 4).2 = true := by decide
  exact ⟨h2, (saveWord_spec _ _ _ _).2.2 h2, (saveWord_spec [] _ [9] 4).2.1 h3⟩

end VocabBridge
